import Mathlib

/-!
Shallow embedding of `testcases/kernel/fs/dentry/dentry01.c` (LTP).

The program is a dentry-cache stress test: a parent process forks a
configurable number of workers, each of which loops creating, renaming and
unlinking files from a fixed ten-slot name table in a shared directory,
until a stop signal sets its termination flag.  We embed:

* the fixed NULL-terminated name table (`filesC`, `files_len`) and the
  resting/moved name variants (`slotSrc`, `slotDst`, the C pointers
  `&files[n][0]` and `&files[n][1]`);
* one iteration of the workload loop (`worker_iter`) and the whole loop
  (`worker_loop`) as functions from an environment (random draws, syscall
  outcomes, signal arrivals) to the list of filesystem calls issued;
* the signal handler (`sa_handler_finished`) on the worker record;
* the parent side: `spawn_workers` (the table it builds) and the process
  event traces of spawning and of `stop_workers`;
* `rm_base_dir` and `setup` with their error paths.

C strings are modelled as `List Char`; the pointer `p + 1` into a string
becomes `List.drop 1`.  Syscall outcomes that depend on the kernel and on
racing siblings are inputs of the model (environment records).
-/

/-- A filesystem call issued by the program, with the name(s) it acts on.
`openat`, `renameat`, `unlinkat` act relative to the directory handle;
`close` takes the descriptor being closed. -/
inductive FsOp where
  | openat (name : List Char)
  | renameat (src dst : List Char)
  | unlinkat (name : List Char)
  | close (fd : Nat)
  | rmdir
  deriving DecidableEq, Repr

/-- The C array `files[]`, a NULL-terminated array of string constants
(lines 31–43): ten names `".f1"` … `".f10"`, then `NULL`. -/
def filesC : List (Option (List Char)) :=
  [ some ['.', 'f', '1'],
    some ['.', 'f', '2'],
    some ['.', 'f', '3'],
    some ['.', 'f', '4'],
    some ['.', 'f', '5'],
    some ['.', 'f', '6'],
    some ['.', 'f', '7'],
    some ['.', 'f', '8'],
    some ['.', 'f', '9'],
    some ['.', 'f', '1', '0'],
    none ]

/-- The counting loop of `setup` (lines 153–155):
`for (files_len = 0; files[files_len]; ++files_len)` — the number of
entries before the first NULL. -/
def count_until_none : List (Option (List Char)) → Nat
  | [] => 0
  | none :: _ => 0
  | some _ :: rest => count_until_none rest + 1

/-- `files_len`, as computed once in `setup`. -/
def files_len : Nat := count_until_none filesC

/-- The non-NULL entries of the table, in order (the strings the program
indexes with `files[n]` for `n < files_len`). -/
def files : List (List Char) := filesC.filterMap id

/-- `&files[n][0]` — the resting name of slot `n` (lines 84, 142). -/
def slotSrc (n : Nat) : List Char := files.getD n []

/-- `&files[n][1]` — the moved name of slot `n`: the same C string starting
one character in (lines 85, 143). -/
def slotDst (n : Nat) : List Char := (files.getD n []).drop 1

theorem files_len_eq : files_len = 10 := by decide

theorem files_length_eq : files.length = 10 := by decide

/-- `struct worker` (lines 46–50): identity, process id, termination flag. -/
structure Worker where
  id : Nat
  pid : Nat
  finished : Bool
  deriving DecidableEq, Repr

/-- `sa_handler_finished` (lines 62–66), acting on the worker record the
child's `current` pointer designates: it sets `finished` to 1 and nothing
else. -/
def sa_handler_finished (w : Worker) : Worker :=
  { w with finished := true }

/-- The child-side initialisation after `SAFE_FORK` returns 0
(lines 110–112): `current = &workers[i]` (so `id` is the slot's `i`, set
just before the fork) and `current->pid = getpid()`. -/
def childInit (i selfPid : Nat) : Worker :=
  { id := i, pid := selfPid, finished := false }

/-- `srandom(current->pid)` (line 80): the seed of the worker's private
pseudo-random stream is its own process id. -/
def worker_seed (w : Worker) : Nat := w.pid

/-- Environment of one pass through the workload loop body: the value
`random()` returns, whether `openat` succeeds and with which descriptor,
whether `renameat` succeeds, the (ignored) `unlinkat` result, and whether
the stop signal is delivered before the next flag check. -/
structure IterEnv where
  rnd : Nat
  openOk : Bool
  fd : Nat
  renameOk : Bool
  unlinkOk : Bool
  signal : Bool
  deriving Repr

/-- One iteration of the workload loop body (lines 83–96): draw
`n = random() % files_len`, `openat` the resting name; on failure
`continue`; on success call `renameat`, then `unlinkat` the resting name
if the rename failed or the moved name if it succeeded (the unlink result
is ignored), and `close` the descriptor. -/
def worker_iter (e : IterEnv) : List FsOp :=
  let n := e.rnd % files_len
  let src := slotSrc n
  let dst := slotDst n
  if e.openOk then
    if e.renameOk then
      [FsOp.openat src, FsOp.renameat src dst, FsOp.unlinkat dst, FsOp.close e.fd]
    else
      [FsOp.openat src, FsOp.renameat src dst, FsOp.unlinkat src, FsOp.close e.fd]
  else
    [FsOp.openat src]

/-- The workload loop of `worker_run` (lines 82–99) driven by a finite
schedule of iteration environments.  Before each test of
`!current->finished` the pending signal (if any) runs the handler.  When
the flag is found set the loop exits, the worker closes its directory
handle and returns 0.  If the schedule runs out with the flag still clear
the worker is still running (`none`). -/
def worker_loop (dirfd : Nat) : Worker → List IterEnv → List FsOp × Option Nat
  | w, [] => if w.finished then ([FsOp.close dirfd], some 0) else ([], none)
  | w, e :: rest =>
    let w' := if e.signal then sa_handler_finished w else w
    if w'.finished then
      ([FsOp.close dirfd], some 0)
    else
      let r := worker_loop dirfd w' rest
      (worker_iter e ++ r.1, r.2)

/-- A parent-side process event: forking the worker of identity `i` whose
process id is `pid`, sending the stop signal (`SAFE_KILL(pid, SIGUSR1)`),
or reaping (`waitpid(pid, ...)`).  Signal delivery is asynchronous: a
`kill` event records only the send. -/
inductive PEvent where
  | fork (i pid : Nat)
  | kill (pid : Nat)
  | wait (pid : Nat)
  deriving DecidableEq, Repr

def PEvent.isKill : PEvent → Bool
  | .kill _ => true
  | _ => false

def PEvent.isWait : PEvent → Bool
  | .wait _ => true
  | _ => false

/-- The parent's worker table after `spawn_workers` (lines 102–117):
`memset` clears the table (so every `finished` flag starts at 0), then for
`i = 0 .. workers_len-1` the slot gets `id = i` and `pid` = the child pid
`SAFE_FORK` returned.  `pids i` is the pid the fork for slot `i`
returned. -/
def spawn_workers (W : Nat) (pids : Nat → Nat) : List Worker :=
  (List.range W).map fun i => { id := i, pid := pids i, finished := false }

/-- The fork events `spawn_workers` emits, one per loop pass, in order. -/
def spawn_events (W : Nat) (pids : Nat → Nat) : List PEvent :=
  (List.range W).map fun i => PEvent.fork i (pids i)

/-- The event trace of `stop_workers` (lines 119–132): a first loop sends
`SIGUSR1` to every worker's pid in table order, then a second loop calls
`waitpid` on every worker's pid in table order. -/
def stop_events (tbl : List Worker) : List PEvent :=
  (tbl.map fun w => PEvent.kill w.pid) ++ (tbl.map fun w => PEvent.wait w.pid)

/-- Environment for one call of `rm_base_dir`: whether `open` of the base
directory succeeds (it fails in particular when the directory does not
exist), the results of the (ignored) `unlinkat` calls, and whether the
final `rmdir` succeeds. -/
structure RmEnv where
  openOk : Bool
  unlinkOk : Nat → Bool
  rmdirOk : Bool

/-- `rm_base_dir` (lines 134–149): if the directory cannot be opened,
return 0 at once (success, nothing to clean).  Otherwise `unlinkat` both
name variants of every slot `i < files_len`, ignoring their results, then
return the result of `rmdir` (0 on success, -1 on failure).  The first
component is the list of filesystem calls issued after a successful
open. -/
def rm_base_dir (env : RmEnv) : List FsOp × Int :=
  if env.openOk then
    (((List.range files_len).flatMap fun i =>
        [FsOp.unlinkat (slotSrc i), FsOp.unlinkat (slotDst i)])
      ++ [FsOp.rmdir],
     if env.rmdirOk then 0 else -1)
  else
    ([], 0)

/-- C `INT_MAX` for the 32-bit `int` of the three options. -/
def intMax : Int := 2 ^ 31 - 1

/-- Modelled from the spec: `tst_parse_int` is LTP library code outside
`src/`.  Per the spec, an absent option leaves the compiled-in default and
an out-of-range value is a configuration error (fatal abort by the
caller).  The string-to-integer conversion itself is abstracted: an
option, when present, is its parsed integer value. -/
def tst_parse_int (arg : Option Int) (deflt lo hi : Int) : Option Int :=
  match arg with
  | none => some deflt
  | some v => if lo ≤ v ∧ v ≤ hi then some v else none

/-- The command-line options of the test: `-w` workers, `-t` timeout
seconds, `-p` priority (`none` = option absent). -/
structure Args where
  workersArg : Option Int
  timeoutArg : Option Int
  priorityArg : Option Int

/-- The configuration `setup` leaves behind on success. -/
structure Config where
  workers_len : Int
  timeout_s : Int
  priority : Int
  deriving DecidableEq, Repr

/-- Environment for `setup`: whether `malloc` of the worker table
succeeds, the environment of its `rm_base_dir` call, and whether `mkdir`
succeeds. -/
structure SetupEnv where
  mallocOk : Bool
  rm : RmEnv
  mkdirOk : Bool

/-- Outcome of `setup`: either a configuration, or a fatal abort
(`tst_brk`) with its message. -/
inductive SetupOut where
  | ok (cfg : Config)
  | brk (msg : String)
  deriving Repr

/-- `setup` (lines 151–179): compute `files_len`, validate the three
options (workers in `1..INT_MAX`, timeout in `1..INT_MAX`, priority in
`-20..19`; any failure is a fatal `tst_brk`), allocate the worker table,
then reset the base directory: a failing `rm_base_dir` or `mkdir` is also
fatal. -/
def setup (a : Args) (env : SetupEnv) : SetupOut :=
  match tst_parse_int a.workersArg 15 1 intMax with
  | none => .brk "Invalid workers count (-w) argument"
  | some w =>
    match tst_parse_int a.timeoutArg 120 1 intMax with
    | none => .brk "Invalid timeout (-t)"
    | some t =>
      match tst_parse_int a.priorityArg 0 (-20) 19 with
      | none => .brk "Invalid priority (-p)"
      | some p =>
        if !env.mallocOk then .brk "Could not allocate workers array"
        else if (rm_base_dir env.rm).2 != 0 then
          .brk "Failed to remove existing base directory"
        else if !env.mkdirOk then .brk "Failed to create base directory"
        else .ok { workers_len := w, timeout_s := t, priority := p }

/-- The process events of `do_test` (lines 187–194): `spawn_workers`, the
sleep, then `stop_workers` on the table just built. -/
def do_test_events (W : Nat) (pids : Nat → Nat) : List PEvent :=
  spawn_events W pids ++ stop_events (spawn_workers W pids)

/-- Modelled from the spec: the LTP driver (outside `src/`) runs `setup`
before the test function, and a fatal abort in `setup` ends the run, so
`do_test` — the only place workers are forked — never executes.  On a
successful setup the run's process-event trace is that of `do_test`. -/
def run_test (a : Args) (env : SetupEnv) (pids : Nat → Nat) :
    Except String (List PEvent) :=
  match setup a env with
  | .brk m => .error m
  | .ok cfg => .ok (do_test_events cfg.workers_len.toNat pids)

/-- `cleanup` (lines 181–185): call `rm_base_dir` (its result is ignored)
and free the worker table; the filesystem calls issued are those of
`rm_base_dir`. -/
def cleanup (env : RmEnv) : List FsOp := (rm_base_dir env).1

/-- The process events a whole run emits: none at all when `setup` aborts
(the driver stops before `do_test`), otherwise those of `do_test`. -/
def run_events (a : Args) (env : SetupEnv) (pids : Nat → Nat) : List PEvent :=
  match setup a env with
  | .brk _ => []
  | .ok cfg => do_test_events cfg.workers_len.toNat pids

theorem slotSrc_ne_slotDst : ∀ n, n < files_len → slotSrc n ≠ slotDst n := by
  decide

theorem slotDst_eq_drop (n : Nat) : slotDst n = (slotSrc n).drop 1 := rfl

/-- C8: the moved name of every slot is the resting name with its leading
character removed (in the embedding of the C pointers `&files[n][0]` and
`&files[n][1]`, dropping one character of the same string), the table has
exactly 10 slots, every resting name begins with a dot, so the two
variants of a slot are distinct; the same `slotSrc`/`slotDst` pair is what
the workload iteration renames and what teardown unlinks. -/
theorem moved_name_is_resting_name_shifted :
    files.length = 10 ∧
    (∀ n, n < files.length →
      slotDst n = (slotSrc n).drop 1 ∧
      (slotSrc n).head? = some '.' ∧
      slotSrc n ≠ slotDst n) ∧
    (∀ e : IterEnv, e.openOk = true →
      FsOp.renameat (slotSrc (e.rnd % files_len))
          ((slotSrc (e.rnd % files_len)).drop 1) ∈ worker_iter e) ∧
    (∀ env : RmEnv, env.openOk = true → ∀ n, n < files_len →
      FsOp.unlinkat ((slotSrc n).drop 1) ∈ (rm_base_dir env).1) := by
  refine ⟨by decide, by decide, ?_, ?_⟩
  · intro e he
    rw [← slotDst_eq_drop]
    obtain ⟨rnd, oOk, fd, rOk, uOk, sg⟩ := e
    cases hr : rOk <;> simp_all [worker_iter]
  · intro env he n hn
    rw [← slotDst_eq_drop]
    simp only [rm_base_dir, he, if_true, List.mem_append]
    left
    simp only [List.mem_flatMap, List.mem_range]
    exact ⟨n, hn, by simp⟩

/-- C8 witness at slot 3 and a concrete iteration environment. -/
theorem moved_name_is_resting_name_shifted_witness :
    FsOp.renameat (slotSrc 3) ((slotSrc 3).drop 1) ∈
      worker_iter { rnd := 3, openOk := true, fd := 5, renameOk := true,
                    unlinkOk := true, signal := false } ∧
    FsOp.unlinkat ((slotSrc 0).drop 1) ∈
      (rm_base_dir { openOk := true, unlinkOk := fun _ => true,
                     rmdirOk := true }).1 := by
  constructor
  · exact (moved_name_is_resting_name_shifted.2.2.1
      { rnd := 3, openOk := true, fd := 5, renameOk := true,
        unlinkOk := true, signal := false } rfl)
  · exact (moved_name_is_resting_name_shifted.2.2.2
      { openOk := true, unlinkOk := fun _ => true, rmdirOk := true }
      rfl 0 (by decide))

/-- C10: `files_len` counts the 10 non-NULL table entries, so it is
positive; the slot index drawn each iteration is the draw reduced modulo
`files_len`, hence strictly below it and below the table length, and the
table entry at that index is a real (non-NULL) string. -/
theorem slot_index_always_in_bounds :
    files_len = 10 ∧ 0 < files_len ∧
    ∀ r : Nat,
      r % files_len < files_len ∧
      r % files_len < files.length ∧
      (filesC.getD (r % files_len) none).isSome = true := by
  refine ⟨by decide, by decide, fun r => ?_⟩
  have h : r % files_len < files_len := Nat.mod_lt _ (by decide)
  have h10 : r % files_len < 10 := by simpa [files_len_eq] using h
  have hall : ∀ k, k < 10 → (filesC.getD k none).isSome = true := by decide
  exact ⟨h, by simpa [files_length_eq, files_len_eq] using h, hall _ h10⟩

/-- C6: after fork the child records its own pid in its slot
(`current->pid = getpid()`), and `worker_run` seeds its private random
stream with that recorded pid (`srandom(current->pid)`); two workers with
different pids therefore use different seeds. -/
theorem worker_seeds_from_own_pid :
    ∀ i p j q : Nat,
      (childInit i p).pid = p ∧
      worker_seed (childInit i p) = p ∧
      (p ≠ q → worker_seed (childInit i p) ≠ worker_seed (childInit j q)) :=
  fun _ _ _ _ => ⟨rfl, rfl, fun h => h⟩

/-- C6 witness: workers 0 (pid 41) and 1 (pid 42) get different seeds. -/
theorem worker_seeds_from_own_pid_witness :
    worker_seed (childInit 0 41) ≠ worker_seed (childInit 1 42) :=
  (worker_seeds_from_own_pid 0 41 1 42).2.2 (by decide)

/-- C9: `spawn_workers` first zeroes the whole table (`memset`), so every
worker starts with a clear termination flag, and then assigns identities
`0 .. W-1` in increasing order, each exactly once. -/
theorem table_zeroed_and_ids_distinct :
    ∀ (W : Nat) (pids : Nat → Nat),
      (∀ w ∈ spawn_workers W pids, w.finished = false) ∧
      (spawn_workers W pids).map Worker.id = List.range W ∧
      ((spawn_workers W pids).map Worker.id).Nodup := by
  intro W pids
  have hmap : (spawn_workers W pids).map Worker.id = List.range W := by
    have hc : (Worker.id ∘ fun i =>
        ({ id := i, pid := pids i, finished := false } : Worker)) = fun i => i := rfl
    rw [spawn_workers, List.map_map, hc, List.map_id']
  refine ⟨?_, hmap, hmap ▸ List.nodup_range W⟩
  intro w hw
  simp only [spawn_workers, List.mem_map, List.mem_range] at hw
  obtain ⟨i, _, rfl⟩ := hw
  rfl

theorem stop_events_spawn (W : Nat) (pids : Nat → Nat) :
    stop_events (spawn_workers W pids) =
      (List.range W).map (fun i => PEvent.kill (pids i)) ++
        (List.range W).map (fun i => PEvent.wait (pids i)) := by
  rw [stop_events, spawn_workers, List.map_map, List.map_map]
  rfl

/-- C1: `spawn_workers` builds a table of exactly `W` workers with the
distinct identities `0 .. W-1` (one fork event per worker, whose child
runs the workload loop and exits with its result), and `stop_workers`
then sends exactly `W` stop signals and performs exactly `W` waits — one
signal and one wait per spawned worker's pid, no more and no fewer — and
never signals or waits on a pid it did not spawn. -/
theorem spawn_and_reap_exactly_W :
    ∀ (W : Nat) (pids : Nat → Nat), 1 ≤ W → Function.Injective pids →
      (spawn_workers W pids).length = W ∧
      (spawn_workers W pids).map Worker.id = List.range W ∧
      (spawn_events W pids).length = W ∧
      ((stop_events (spawn_workers W pids)).filter PEvent.isKill).length
        = W ∧
      ((stop_events (spawn_workers W pids)).filter PEvent.isWait).length
        = W ∧
      (∀ i, i < W →
        (stop_events (spawn_workers W pids)).count
            (PEvent.kill (pids i)) = 1 ∧
        (stop_events (spawn_workers W pids)).count
            (PEvent.wait (pids i)) = 1) ∧
      (∀ p, PEvent.kill p ∈ stop_events (spawn_workers W pids) →
        ∃ i, i < W ∧ p = pids i) ∧
      (∀ p, PEvent.wait p ∈ stop_events (spawn_workers W pids) →
        ∃ i, i < W ∧ p = pids i) := by
  intro W pids _ hinj
  have hmap : (spawn_workers W pids).map Worker.id = List.range W := by
    have hc : (Worker.id ∘ fun i =>
        ({ id := i, pid := pids i, finished := false } : Worker)) =
          fun i => i := rfl
    rw [spawn_workers, List.map_map, hc, List.map_id']
  have hkinj : Function.Injective fun i => PEvent.kill (pids i) := by
    intro a b h
    exact hinj (PEvent.kill.injEq .. ▸ h)
  have hwinj : Function.Injective fun i => PEvent.wait (pids i) := by
    intro a b h
    exact hinj (PEvent.wait.injEq .. ▸ h)
  refine ⟨by simp [spawn_workers], hmap, by simp [spawn_events],
    ?_, ?_, ?_, ?_, ?_⟩
  · rw [stop_events_spawn, List.filter_append]
    have h1 : ((List.range W).map
        (fun i => PEvent.kill (pids i))).filter PEvent.isKill =
        (List.range W).map (fun i => PEvent.kill (pids i)) := by
      rw [List.filter_eq_self]
      intro a ha
      obtain ⟨i, -, rfl⟩ := List.mem_map.mp ha
      rfl
    have h2 : ((List.range W).map
        (fun i => PEvent.wait (pids i))).filter PEvent.isKill = [] := by
      rw [List.filter_eq_nil_iff]
      intro a ha
      obtain ⟨i, -, rfl⟩ := List.mem_map.mp ha
      simp [PEvent.isKill]
    rw [h1, h2]
    simp
  · rw [stop_events_spawn, List.filter_append]
    have h1 : ((List.range W).map
        (fun i => PEvent.kill (pids i))).filter PEvent.isWait = [] := by
      rw [List.filter_eq_nil_iff]
      intro a ha
      obtain ⟨i, -, rfl⟩ := List.mem_map.mp ha
      simp [PEvent.isWait]
    have h2 : ((List.range W).map
        (fun i => PEvent.wait (pids i))).filter PEvent.isWait =
        (List.range W).map (fun i => PEvent.wait (pids i)) := by
      rw [List.filter_eq_self]
      intro a ha
      obtain ⟨i, -, rfl⟩ := List.mem_map.mp ha
      rfl
    rw [h1, h2]
    simp
  · intro i hi
    rw [stop_events_spawn]
    constructor
    · rw [List.count_append]
      have hz : ((List.range W).map
          (fun i => PEvent.wait (pids i))).count (PEvent.kill (pids i))
            = 0 := by
        rw [List.count_eq_zero]
        intro hmem
        obtain ⟨j, -, hj⟩ := List.mem_map.mp hmem
        exact PEvent.noConfusion hj
      rw [hz, List.count_eq_one_of_mem
        (List.Nodup.map hkinj (List.nodup_range W))
        (List.mem_map.mpr ⟨i, List.mem_range.mpr hi, rfl⟩)]
    · rw [List.count_append]
      have hz : ((List.range W).map
          (fun i => PEvent.kill (pids i))).count (PEvent.wait (pids i))
            = 0 := by
        rw [List.count_eq_zero]
        intro hmem
        obtain ⟨j, -, hj⟩ := List.mem_map.mp hmem
        exact PEvent.noConfusion hj
      rw [hz, List.count_eq_one_of_mem
        (List.Nodup.map hwinj (List.nodup_range W))
        (List.mem_map.mpr ⟨i, List.mem_range.mpr hi, rfl⟩)]
  · intro p hp
    rw [stop_events_spawn] at hp
    rcases List.mem_append.mp hp with h | h
    · obtain ⟨i, hi, hji⟩ := List.mem_map.mp h
      exact ⟨i, List.mem_range.mp hi, (PEvent.kill.injEq .. ▸ hji).symm⟩
    · obtain ⟨i, -, hji⟩ := List.mem_map.mp h
      exact PEvent.noConfusion hji
  · intro p hp
    rw [stop_events_spawn] at hp
    rcases List.mem_append.mp hp with h | h
    · obtain ⟨i, -, hji⟩ := List.mem_map.mp h
      exact PEvent.noConfusion hji
    · obtain ⟨i, hi, hji⟩ := List.mem_map.mp h
      exact ⟨i, List.mem_range.mp hi, (PEvent.wait.injEq .. ▸ hji).symm⟩

/-- C1 witness at `W = 3` with the injective pid assignment
`i ↦ i + 100`: three signals, three waits, one wait for pid 101. -/
theorem spawn_and_reap_exactly_W_witness :
    (spawn_workers 3 (fun n => n + 100)).length = 3 ∧
    (stop_events (spawn_workers 3 (fun n => n + 100))).count
        (PEvent.wait 101) = 1 := by
  have h := spawn_and_reap_exactly_W 3 (fun n => n + 100)
    (by decide) (fun a b hab => by simpa using hab)
  exact ⟨h.1, (h.2.2.2.2.2.1 1 (by decide)).2⟩

/-- C2: in the `stop_workers` trace over the table `spawn_workers` built,
the first `W` events are the signal sends, in worker-identity order
(event `i` signals worker `i`'s pid), the next `W` events are the waits,
again in worker-identity order; hence every signal send precedes every
wait — no wait blocks any signal send. -/
theorem signal_all_before_any_wait :
    ∀ (W : Nat) (pids : Nat → Nat),
      (stop_events (spawn_workers W pids)).length = 2 * W ∧
      (∀ i, i < W →
        (stop_events (spawn_workers W pids))[i]? =
          some (PEvent.kill (pids i))) ∧
      (∀ i, i < W →
        (stop_events (spawn_workers W pids))[W + i]? =
          some (PEvent.wait (pids i))) ∧
      (∀ i j (hi : i < (stop_events (spawn_workers W pids)).length)
          (hj : j < (stop_events (spawn_workers W pids)).length),
        PEvent.isKill ((stop_events (spawn_workers W pids))[i]) = true →
        PEvent.isWait ((stop_events (spawn_workers W pids))[j]) = true →
        i < j) := by
  intro W pids
  have hlen : (stop_events (spawn_workers W pids)).length = 2 * W := by
    rw [stop_events_spawn]
    simp
    omega
  have hkpos : ∀ i, i < W →
      (stop_events (spawn_workers W pids))[i]? =
        some (PEvent.kill (pids i)) := by
    intro i h
    rw [stop_events_spawn, List.getElem?_append_left (by simpa using h),
      List.getElem?_map, List.getElem?_range h]
    rfl
  have hwpos : ∀ i, i < W →
      (stop_events (spawn_workers W pids))[W + i]? =
        some (PEvent.wait (pids i)) := by
    intro i h
    rw [stop_events_spawn, List.getElem?_append_right (by simp)]
    simp [List.getElem?_range h]
  refine ⟨hlen, hkpos, hwpos, ?_⟩
  intro i j hi hj hki hwj
  have hiW : i < W := by
    by_contra hge
    push_neg at hge
    have hi2 : i - W < W := by
      rw [hlen] at hi
      omega
    have hp := hwpos (i - W) hi2
    rw [Nat.add_sub_cancel' hge, List.getElem?_eq_getElem hi] at hp
    rw [Option.some.inj hp] at hki
    exact Bool.noConfusion hki
  have hjW : W ≤ j := by
    by_contra hlt
    push_neg at hlt
    have hp := hkpos j hlt
    rw [List.getElem?_eq_getElem hj] at hp
    rw [Option.some.inj hp] at hwj
    exact Bool.noConfusion hwj
  omega

/-- C2 witness at `W = 2`, pids 100 and 101: event 0 is the signal to
pid 100, event 2 is the wait for pid 100, and the signal at position 0
precedes the wait at position 2. -/
theorem signal_all_before_any_wait_witness :
    (stop_events (spawn_workers 2 (fun n => n + 100)))[0]? =
      some (PEvent.kill 100) ∧
    (stop_events (spawn_workers 2 (fun n => n + 100)))[2]? =
      some (PEvent.wait 100) ∧
    (0 : Nat) < 2 := by
  have h := signal_all_before_any_wait 2 (fun n => n + 100)
  refine ⟨h.2.1 0 (by decide), h.2.2.1 0 (by decide), ?_⟩
  exact h.2.2.2 0 2 (by decide) (by decide) (by decide) (by decide)

/-- C3: in an iteration whose create-and-open succeeds, the rename is
attempted; on rename failure the resting name is unlinked (and the moved
name is not), on rename success the moved name is unlinked (and the
resting name is not); the descriptor is closed as the iteration's last
call either way; the unlink result never influences the iteration; and
when the open fails the iteration is just the failed open — no descriptor
is held, no close happens. -/
theorem iteration_rename_fallback_and_close :
    ∀ e : IterEnv,
      (e.openOk = true →
        (worker_iter e).getLast? = some (FsOp.close e.fd) ∧
        (e.renameOk = false →
          FsOp.unlinkat (slotSrc (e.rnd % files_len)) ∈ worker_iter e ∧
          FsOp.unlinkat (slotDst (e.rnd % files_len)) ∉ worker_iter e) ∧
        (e.renameOk = true →
          FsOp.unlinkat (slotDst (e.rnd % files_len)) ∈ worker_iter e ∧
          FsOp.unlinkat (slotSrc (e.rnd % files_len)) ∉ worker_iter e)) ∧
      (e.openOk = false →
        worker_iter e = [FsOp.openat (slotSrc (e.rnd % files_len))]) ∧
      (∀ b b' : Bool,
        worker_iter { e with unlinkOk := b } =
          worker_iter { e with unlinkOk := b' }) := by
  intro e
  obtain ⟨rnd, oOk, fd, rOk, uOk, sg⟩ := e
  have hne : slotSrc (rnd % files_len) ≠ slotDst (rnd % files_len) :=
    slotSrc_ne_slotDst _ (Nat.mod_lt _ (by decide))
  have hne' : slotDst (rnd % files_len) ≠ slotSrc (rnd % files_len) := hne.symm
  cases oOk <;> cases rOk <;> simp_all [worker_iter]

/-- C3 witness: a successful open with a failing rename unlinks the
resting name, not the moved one. -/
theorem iteration_rename_fallback_and_close_witness :
    FsOp.unlinkat (slotSrc 2) ∈
      worker_iter { rnd := 2, openOk := true, fd := 4, renameOk := false,
                    unlinkOk := false, signal := false } ∧
    FsOp.unlinkat (slotDst 2) ∉
      worker_iter { rnd := 2, openOk := true, fd := 4, renameOk := false,
                    unlinkOk := false, signal := false } :=
  ((iteration_rename_fallback_and_close
      { rnd := 2, openOk := true, fd := 4, renameOk := false,
        unlinkOk := false, signal := false }).1 rfl).2.1 rfl

theorem run_of_brk (a : Args) (env : SetupEnv) (pids : Nat → Nat)
    (m : String) (h : setup a env = SetupOut.brk m) :
    run_test a env pids = Except.error m ∧ run_events a env pids = [] := by
  rw [run_test, run_events, h]
  exact ⟨rfl, rfl⟩

theorem parse_none_of_lt_one (w d : Int) (h : w < 1) :
    tst_parse_int (some w) d 1 intMax = none := by
  rw [tst_parse_int, if_neg]
  rintro ⟨h1, -⟩
  omega

theorem parse_none_of_bad_nice (p d : Int) (h : p < -20 ∨ 19 < p) :
    tst_parse_int (some p) d (-20) 19 = none := by
  rw [tst_parse_int, if_neg]
  rintro ⟨h1, h2⟩
  rcases h with h | h <;> omega

/-- C5: `setup` validates the three options — a worker count below 1, a
timeout below 1 second, or a priority outside the nice range `-20..19`
each make it call `tst_brk` — and an aborted setup ends the run before
`do_test`, so not a single process event (in particular no fork) is
emitted. -/
theorem setup_validates_config :
    ∀ (a : Args) (env : SetupEnv) (pids : Nat → Nat),
      ((∃ w, a.workersArg = some w ∧ w < 1) →
        (∃ m, run_test a env pids = Except.error m) ∧
          run_events a env pids = []) ∧
      ((∃ t, a.timeoutArg = some t ∧ t < 1) →
        (∃ m, run_test a env pids = Except.error m) ∧
          run_events a env pids = []) ∧
      ((∃ p, a.priorityArg = some p ∧ (p < -20 ∨ 19 < p)) →
        (∃ m, run_test a env pids = Except.error m) ∧
          run_events a env pids = []) := by
  intro a env pids
  refine ⟨?_, ?_, ?_⟩
  · rintro ⟨w, hw, hlt⟩
    have hb : ∃ m, setup a env = SetupOut.brk m := by
      rw [setup, hw, parse_none_of_lt_one w 15 hlt]
      exact ⟨_, rfl⟩
    obtain ⟨m, hm⟩ := hb
    obtain ⟨h1, h2⟩ := run_of_brk a env pids m hm
    exact ⟨⟨m, h1⟩, h2⟩
  · rintro ⟨t, ht, hlt⟩
    have hb : ∃ m, setup a env = SetupOut.brk m := by
      rw [setup, ht, parse_none_of_lt_one t 120 hlt]
      cases tst_parse_int a.workersArg 15 1 intMax <;> exact ⟨_, rfl⟩
    obtain ⟨m, hm⟩ := hb
    obtain ⟨h1, h2⟩ := run_of_brk a env pids m hm
    exact ⟨⟨m, h1⟩, h2⟩
  · rintro ⟨p, hp, hrange⟩
    have hb : ∃ m, setup a env = SetupOut.brk m := by
      rw [setup, hp, parse_none_of_bad_nice p 0 hrange]
      cases tst_parse_int a.workersArg 15 1 intMax <;>
        [skip; cases tst_parse_int a.timeoutArg 120 1 intMax] <;>
        exact ⟨_, rfl⟩
    obtain ⟨m, hm⟩ := hb
    obtain ⟨h1, h2⟩ := run_of_brk a env pids m hm
    exact ⟨⟨m, h1⟩, h2⟩

/-- C5 witness: a run with priority 100 aborts with no process events. -/
theorem setup_validates_config_witness :
    (∃ m, run_test { workersArg := none, timeoutArg := none,
                     priorityArg := some 100 }
        { mallocOk := true,
          rm := { openOk := false, unlinkOk := fun _ => true,
                  rmdirOk := true },
          mkdirOk := true } (fun n => n) = Except.error m) ∧
    run_events { workersArg := none, timeoutArg := none,
                 priorityArg := some 100 }
        { mallocOk := true,
          rm := { openOk := false, unlinkOk := fun _ => true,
                  rmdirOk := true },
          mkdirOk := true } (fun n => n) = [] :=
  (setup_validates_config
      { workersArg := none, timeoutArg := none, priorityArg := some 100 }
      { mallocOk := true,
        rm := { openOk := false, unlinkOk := fun _ => true,
                rmdirOk := true },
        mkdirOk := true } (fun n => n)).2.2
    ⟨100, rfl, Or.inr (by decide)⟩

/-- C7: the stop-signal handler sets the worker's termination flag to
true and changes nothing else (identity and pid are untouched); the flag
is checked at the top of each loop pass, and whenever the workload loop
exits it returns status 0 with the close of the directory handle as its
last filesystem call. -/
theorem handler_only_sets_flag_and_clean_exit :
    (∀ w : Worker,
      (sa_handler_finished w).finished = true ∧
      (sa_handler_finished w).id = w.id ∧
      (sa_handler_finished w).pid = w.pid) ∧
    (∀ (dirfd : Nat) (w : Worker) (envs : List IterEnv)
        (ops : List FsOp) (r : Nat),
      worker_loop dirfd w envs = (ops, some r) →
      r = 0 ∧ ops.getLast? = some (FsOp.close dirfd)) := by
  constructor
  · exact fun w => ⟨rfl, rfl, rfl⟩
  · intro dirfd w envs
    induction envs generalizing w with
    | nil =>
      intro ops r h
      by_cases hw : w.finished = true
      · rw [worker_loop, if_pos hw] at h
        obtain ⟨rfl, hr⟩ := Prod.mk.injEq .. ▸ h
        exact ⟨by simpa using hr.symm, rfl⟩
      · rw [worker_loop, if_neg hw] at h
        simp at h
    | cons e rest ih =>
      intro ops r h
      rw [worker_loop] at h
      cases hs : e.signal with
      | true =>
        rw [hs] at h
        simp only [if_true] at h
        have hfin : (sa_handler_finished w).finished = true := rfl
        rw [if_pos hfin] at h
        obtain ⟨rfl, hr⟩ := Prod.mk.injEq .. ▸ h
        exact ⟨by simpa using hr.symm, rfl⟩
      | false =>
        rw [hs] at h
        simp only [Bool.false_eq_true, if_false] at h
        by_cases hw : w.finished = true
        · rw [if_pos hw] at h
          obtain ⟨rfl, hr⟩ := Prod.mk.injEq .. ▸ h
          exact ⟨by simpa using hr.symm, rfl⟩
        · rw [if_neg hw] at h
          obtain ⟨hops, hr⟩ := Prod.mk.injEq .. ▸ h
          have hrec : worker_loop dirfd w rest =
              ((worker_loop dirfd w rest).1, some r) := by
            rw [← hr]
          obtain ⟨hr0, hlast⟩ := ih w (worker_loop dirfd w rest).1 r hrec
          have hnil : (worker_loop dirfd w rest).1 ≠ [] := by
            intro hn
            rw [hn] at hlast
            simp at hlast
          refine ⟨hr0, ?_⟩
          rw [← hops, List.getLast?_append_of_ne_nil _ hnil]
          exact hlast

/-- C4: when the base directory cannot be opened (in particular when it
does not exist) `rm_base_dir` issues no filesystem call and reports
success; when it can be opened, both name variants of every slot are
unlinked unconditionally (regardless of the unlink results) before the
final `rmdir`; with a working `rmdir` the routine succeeds whether or not
the directory existed, so the teardown `cleanup` performs is idempotent
and `setup` over a stale (or absent) directory succeeds. -/
theorem rm_base_dir_idempotent :
    (∀ env : RmEnv, env.openOk = false →
      rm_base_dir env = ([], 0) ∧ cleanup env = []) ∧
    (∀ env : RmEnv, env.openOk = true →
      (∀ n, n < files_len →
        FsOp.unlinkat (slotSrc n) ∈ (rm_base_dir env).1 ∧
        FsOp.unlinkat (slotDst n) ∈ (rm_base_dir env).1) ∧
      (rm_base_dir env).1.getLast? = some FsOp.rmdir) ∧
    (∀ (env : RmEnv) (f g : Nat → Bool),
      rm_base_dir { env with unlinkOk := f } =
        rm_base_dir { env with unlinkOk := g }) ∧
    (∀ env : RmEnv, env.rmdirOk = true → (rm_base_dir env).2 = 0) ∧
    (∀ env : SetupEnv, env.mallocOk = true → env.rm.rmdirOk = true →
      env.mkdirOk = true →
      setup { workersArg := none, timeoutArg := none, priorityArg := none }
          env =
        SetupOut.ok { workers_len := 15, timeout_s := 120, priority := 0 }) := by
  refine ⟨?_, ?_, ?_, ?_, ?_⟩
  · intro env h
    simp [rm_base_dir, cleanup, h]
  · intro env h
    constructor
    · intro n hn
      constructor <;>
      · simp only [rm_base_dir, h, if_true]
        exact List.mem_append_left _
          (List.mem_flatMap.mpr ⟨n, List.mem_range.mpr hn, by simp⟩)
    · simp only [rm_base_dir, h, if_true]
      rw [List.getLast?_append_of_ne_nil _ (by simp)]
      rfl
  · intro env f g
    obtain ⟨oOk, u, rOk⟩ := env
    cases oOk <;> simp [rm_base_dir]
  · intro env h
    obtain ⟨oOk, u, rOk⟩ := env
    cases oOk <;> simp_all [rm_base_dir]
  · intro env hm hrm hmk
    have hr : (rm_base_dir env.rm).2 = 0 := by
      cases ho : env.rm.openOk <;> simp [rm_base_dir, ho, hrm]
    simp [setup, tst_parse_int, hm, hmk, hr]

/-- C4 witness: an unopenable (absent) directory yields success with no
calls, and the slot-0 names are unlinked when the directory exists. -/
theorem rm_base_dir_idempotent_witness :
    rm_base_dir { openOk := false, unlinkOk := fun _ => true,
                  rmdirOk := true } = ([], 0) ∧
    FsOp.unlinkat (slotSrc 0) ∈
      (rm_base_dir { openOk := true, unlinkOk := fun _ => true,
                     rmdirOk := true }).1 :=
  ⟨(rm_base_dir_idempotent.1
      { openOk := false, unlinkOk := fun _ => true, rmdirOk := true } rfl).1,
   ((rm_base_dir_idempotent.2.1
      { openOk := true, unlinkOk := fun _ => true, rmdirOk := true } rfl).1
      0 (by decide)).1⟩

/-- C7 witness: with the signal delivered before the first check, the
loop exits at once, returning 0 after closing the directory handle. -/
theorem handler_only_sets_flag_and_clean_exit_witness :
    (0 : Nat) = 0 ∧
      [FsOp.close 7].getLast? = some (FsOp.close 7) :=
  handler_only_sets_flag_and_clean_exit.2 7
    { id := 0, pid := 41, finished := false }
    [{ rnd := 0, openOk := true, fd := 3, renameOk := true,
       unlinkOk := true, signal := true }]
    [FsOp.close 7] 0 rfl
